import Mathlib

/-!
Verification of the fish-shell input-engine specification and of the
repository source files.

The development has two parts:

1. The input engine (key-binding resolution, event queue, query
   coordinator).  The implementation of these components is not part of
   the source excerpt (only its test, `src/tests/input.rs`, is), so the
   definitions are modelled from the specification document, faithful to
   its words (sections 3, 4.1-4.4).

2. The gettext PO-file parser (`crates/gettext-po-file-parser/src/lib.rs`)
   and the `string length` builtin (`src/builtins/string/length.rs`),
   which are embedded directly from the Rust source.
-/

namespace FishInput

/-- Modelled from the spec: a Key is a normalized identity for one logical
keystroke, either a Unicode code point or a named special key, each
carrying modifier flags (spec section 3, "Key"). -/
inductive Key where
  | char (codePoint : Char) (modifiers : Nat)
  | named (identifier : Nat) (modifiers : Nat)
deriving DecidableEq, Repr

/-- Modelled from the spec and the test file: `Key::from_raw(c)` builds a
plain character key without modifiers. -/
def Key.fromRaw (c : Char) : Key := .char c 0

/-- Modelled from the spec: an Event is a tagged value flowing through the
queue (spec section 3, "Event"). -/
inductive Event where
  | keyPress (k : Key)
  | rawByte (b : Nat)
  | queryResponse (payload : Nat)
  | eof
  | checkpointMarker
deriving DecidableEq, Repr

/-- Modelled from the spec: the Event Queue owns a growable buffer of
Events plus a commit cursor and a peek cursor (spec section 3,
"Event Queue"; section 4.1). -/
structure EventQueue where
  events : List Event
  commit_cursor : Nat
  peek_cursor : Nat
deriving DecidableEq, Repr

/-- Invariant of the Event Queue (spec section 3):
`commit_cursor <= peek_cursor <= queue_length`. -/
def EventQueue.invariant (q : EventQueue) : Prop :=
  q.commit_cursor ≤ q.peek_cursor ∧ q.peek_cursor ≤ q.events.length

instance (q : EventQueue) : Decidable q.invariant := by
  unfold EventQueue.invariant; infer_instance

/-- Modelled from the spec: `push(event)` appends to the tail
(spec section 4.1). -/
def EventQueue.push (q : EventQueue) (e : Event) : EventQueue :=
  { q with events := q.events ++ [e] }

/-- Modelled from the spec: `peek_at(offset)` returns the Event at
`peek_cursor + offset` without advancing; `none` models the
would-block indicator when the event is not available
(spec section 4.1). -/
def EventQueue.peek_at (q : EventQueue) (offset : Nat) : Option Event :=
  q.events[q.peek_cursor + offset]?

/-- Modelled from the spec: `advance_peek(n)` moves the peek cursor
forward by `n` without committing (spec section 4.1).  The resolver only
advances over events it has successfully peeked, so the advance is
bounded by the number of buffered events; the bound is made explicit
with a clamp. -/
def EventQueue.advance_peek (q : EventQueue) (n : Nat) : EventQueue :=
  { q with peek_cursor := min (q.peek_cursor + n) q.events.length }

/-- Modelled from the spec: `commit()` moves the commit cursor to the
current peek cursor; events strictly before it become eligible for
discard (they are not removed here, merely discardable)
(spec section 4.1). -/
def EventQueue.commit (q : EventQueue) : EventQueue :=
  { q with commit_cursor := q.peek_cursor }

/-- Modelled from the spec: `restart()` resets the peek cursor back to
the commit cursor without discarding anything (spec section 4.1). -/
def EventQueue.restart (q : EventQueue) : EventQueue :=
  { q with peek_cursor := q.commit_cursor }

/-- Modelled from the spec: a Binding maps a non-empty key sequence,
scoped to an editing mode, to an ordered command list, optionally
transitioning to a new mode (spec section 3, "Binding"). -/
structure Binding where
  sequence : List Key
  mode : String
  command_list : List String
  sets_mode : Option String
  is_user_binding : Bool
deriving DecidableEq, Repr

/-- Modelled from the spec: the default bind mode name used by the test
(`DEFAULT_BIND_MODE`). -/
def DEFAULT_BIND_MODE : String := "default"

/-- Modelled from the spec: registration appends a binding to the table,
replacing any previous binding for the identical `(mode, sequence)` pair
(spec section 3, "Binding Table": duplicates replace; section 6,
"Binding registration contract"). -/
def register (table : List Binding) (b : Binding) : List Binding :=
  table.filter
      (fun b2 => decide (¬(b2.mode = b.mode ∧ b2.sequence = b.sequence)))
    ++ [b]

/-- Modelled from the spec: `candidates(mode, so_far)` returns the
bindings registered for `mode` whose sequence has `so_far` as a prefix,
including exact equality (spec section 4.2). -/
def candidates (table : List Binding) (mode : String) (so_far : List Key) :
    List Binding :=
  table.filter (fun b => decide (b.mode = mode ∧ so_far <+: b.sequence))

/-- Modelled from the spec: the outcome of one resolution attempt
(spec section 4.3): a full match emitting a binding after consuming
`consumed` keys, a single-character fallback (self-insert of one key,
consuming exactly that key), or nothing to resolve. -/
inductive Resolution where
  | matched (b : Binding) (consumed : Nat)
  | selfInsert (k : Key)
  | noInput
deriving DecidableEq, Repr

/-- Number of keys a resolution outcome consumes from the queue. -/
def Resolution.consumed : Resolution → Nat
  | .matched _ n => n
  | .selfInsert _ => 1
  | .noInput => 0

/-- Modelled from the spec: the exact match among the candidates, i.e.
the candidate whose sequence equals the keys seen so far (spec
section 4.3 step 2; within one mode sequences are distinct, so at most
one exact match exists). -/
def exactMatch (cands : List Binding) (so_far : List Key) : Option Binding :=
  cands.find? (fun b => decide (b.sequence = so_far))

/-- Modelled from the spec: whether some candidate is a strictly longer
extension of the keys seen so far, i.e. a longer binding could still
complete (spec section 4.3 step 2). -/
def hasLongerCandidate (cands : List Binding) (so_far : List Key) : Bool :=
  cands.any (fun b => decide (so_far.length < b.sequence.length))

/-- Modelled from the spec: the resolver state machine of section 4.3,
one key per step.  `pending` is the not-yet-examined input; reaching its
end models the bounded ambiguity wait expiring with no further key.
`so_far` is the running sequence of examined keys, and `best` is the
longest `(binding, consumed)` exact match found at an ambiguity point.
Per step (spec section 4.3 step 2, in order): no candidate at all means
fallback to self-insert of the first collected key; an exact match with
no longer candidate is emitted immediately; an exact match with a longer
candidate records the best exact match and keeps collecting; prefix-only
candidates keep collecting.  At end of input, the recorded best exact
match is emitted if present, otherwise the first collected key
self-inserts (or there was no input at all). -/
def resolveLoop (table : List Binding) (mode : String) :
    List Key → List Key → Option (Binding × Nat) → Resolution
  | [], so_far, best =>
    match best with
    | some (b, n) => .matched b n
    | none =>
      match so_far with
      | [] => .noInput
      | k0 :: _ => .selfInsert k0
  | k :: rest, so_far, best =>
    if candidates table mode (so_far ++ [k]) = [] then
      match so_far with
      | [] => .selfInsert k
      | k0 :: _ => .selfInsert k0
    else
      match exactMatch (candidates table mode (so_far ++ [k])) (so_far ++ [k]) with
      | some b =>
        if hasLongerCandidate (candidates table mode (so_far ++ [k]))
            (so_far ++ [k]) then
          resolveLoop table mode rest (so_far ++ [k])
            (some (b, (so_far ++ [k]).length))
        else
          .matched b (so_far ++ [k]).length
      | none => resolveLoop table mode rest (so_far ++ [k]) best

/-- Modelled from the spec: a full resolution attempt over the fed keys,
starting with an empty `so_far` and no exact match recorded
(spec section 4.3). -/
def resolve (table : List Binding) (mode : String) (input : List Key) :
    Resolution :=
  resolveLoop table mode input [] none

/-- Modelled from the spec: the Query Coordinator state is `None` or
`Pending(query_id, issued_at)` (spec section 3, "Query Coordinator
state"). -/
inductive QueryState where
  | noQuery
  | pending (query_id : Nat) (issued_at : Nat)
deriving DecidableEq, Repr

/-- Modelled from the spec: `issue(query_id)` fails (logic error) if a
query is already pending; otherwise it records `Pending(query_id, now)`
(spec section 4.4).  On failure the coordinator state held by the caller
is left untouched; the error return carries no new state. -/
def QueryState.issue (st : QueryState) (query_id : Nat) (now : Nat) :
    Except String QueryState :=
  match st with
  | .pending _ _ => .error "logic error: a query is already pending"
  | .noQuery => .ok (.pending query_id now)

end FishInput

namespace FishInput

/-- Taking an initial segment of a list yields one of its prefixes. -/
theorem take_isPre {α : Type} (l : List α) (n : Nat) : l.take n <+: l :=
  ⟨l.drop n, List.take_append_drop n l⟩

/-- Characterization of candidate membership: a binding is a candidate
exactly when it is in the table, is registered for the looked-up mode,
and its sequence extends the keys seen so far. -/
theorem mem_candidates {t : List Binding} {m : String} {s : List Key}
    {b : Binding} :
    b ∈ candidates t m s ↔ b ∈ t ∧ b.mode = m ∧ s <+: b.sequence := by
  simp [candidates, List.mem_filter]

/-- find? returns the unique element of the list satisfying the
predicate when there is one. -/
theorem find_unique {α : Type} {p : α → Bool} {l : List α} {a : α}
    (ha : a ∈ l) (hpa : p a = true) (huniq : ∀ b ∈ l, p b = true → b = a) :
    l.find? p = some a := by
  induction l with
  | nil => cases ha
  | cons x xs ih =>
    cases hx : p x with
    | true =>
      have hxa : x = a := huniq x (List.mem_cons_self x xs) hx
      subst hxa
      simp [List.find?_cons, hx]
    | false =>
      have hnil : a ∈ xs := by
        rcases List.mem_cons.mp ha with rfl | hmem
        · rw [hpa] at hx; cases hx
        · exact hmem
      simp only [List.find?_cons, hx]
      exact ih hnil fun b hb hpb => huniq b (List.mem_cons_of_mem x hb) hpb

/-- Core lemma for longest-match precedence: with a table consisting of
exactly two bindings, one of which extends the other and both in mode
`m`, feeding the longer sequence resolves to the longer binding, from
any position `i` inside the longer sequence and with any recorded best
exact match. -/
theorem resolveLoop_longest_wins {t : List Binding} {bA bB : Binding}
    {m : String}
    (hAt : bA ∈ t) (hBt : bB ∈ t) (ht : ∀ b ∈ t, b = bA ∨ b = bB)
    (hmA : bA.mode = m) (hmB : bB.mode = m)
    (hpre : bA.sequence <+: bB.sequence)
    (hlen : bA.sequence.length < bB.sequence.length) :
    ∀ (rem : List Key) (i : Nat), bB.sequence.drop i = rem →
      i < bB.sequence.length → ∀ best,
      resolveLoop t m rem (bB.sequence.take i) best
        = .matched bB bB.sequence.length := by
  intro rem
  induction rem with
  | nil =>
    intro i hdrop hi best
    have := List.drop_eq_nil_iff.mp hdrop
    omega
  | cons k rest ih =>
    intro i hdrop hi best
    have htake : bB.sequence.take (i + 1) = bB.sequence.take i ++ [k] := by
      rw [List.take_add, hdrop]
      rfl
    have hdrop2 : bB.sequence.drop (i + 1) = rest := by
      rw [← List.tail_drop, hdrop]
      rfl
    simp only [resolveLoop]
    rw [← htake]
    have hBc : bB ∈ candidates t m (bB.sequence.take (i + 1)) :=
      mem_candidates.mpr ⟨hBt, hmB, take_isPre _ _⟩
    rw [if_neg (List.ne_nil_of_mem hBc)]
    have hlen_s2 : (bB.sequence.take (i + 1)).length = i + 1 := by
      rw [List.length_take]; omega
    by_cases hend : i + 1 = bB.sequence.length
    · have hs2 : bB.sequence.take (i + 1) = bB.sequence := by
        rw [hend, List.take_length]
      rw [hs2] at hBc ⊢
      have hexact :
          exactMatch (candidates t m bB.sequence) bB.sequence = some bB := by
        refine find_unique hBc (by simp) ?_
        intro b hb hpb
        have hbseq : b.sequence = bB.sequence := of_decide_eq_true hpb
        rcases ht b (mem_candidates.mp hb).1 with hbe | hbe
        · exfalso
          rw [hbe] at hbseq
          rw [hbseq] at hlen
          omega
        · exact hbe
      have hlong :
          hasLongerCandidate (candidates t m bB.sequence) bB.sequence
            = false := by
        rw [hasLongerCandidate]
        refine List.any_eq_false.mpr ?_
        intro b hb
        simp only [decide_eq_true_eq]
        have hble := (mem_candidates.mp hb).2.2.length_le
        rcases ht b (mem_candidates.mp hb).1 with hbe | hbe
        · rw [hbe] at hble; omega
        · rw [hbe]; omega
      simp [hexact, hlong]
    · have hi2 : i + 1 < bB.sequence.length := by omega
      by_cases hAl : i + 1 = bA.sequence.length
      · have hseq : bA.sequence = bB.sequence.take (i + 1) := by
          rw [hAl]
          exact List.prefix_iff_eq_take.mp hpre
        have hAc : bA ∈ candidates t m (bB.sequence.take (i + 1)) :=
          mem_candidates.mpr ⟨hAt, hmA, by rw [← hseq]⟩
        have hexact :
            exactMatch (candidates t m (bB.sequence.take (i + 1)))
              (bB.sequence.take (i + 1)) = some bA := by
          refine find_unique hAc (by simp [hseq]) ?_
          intro b hb hpb
          have hbseq : b.sequence = bB.sequence.take (i + 1) :=
            of_decide_eq_true hpb
          rcases ht b (mem_candidates.mp hb).1 with hbe | hbe
          · exact hbe
          · exfalso
            rw [hbe] at hbseq
            have := congrArg List.length hbseq
            rw [hlen_s2] at this
            omega
        have hlong :
            hasLongerCandidate (candidates t m (bB.sequence.take (i + 1)))
              (bB.sequence.take (i + 1)) = true := by
          rw [hasLongerCandidate]
          refine List.any_eq_true.mpr ⟨bB, hBc, ?_⟩
          simp only [hlen_s2, decide_eq_true_eq]
          exact hi2
        simp only [hexact, hlong, if_true]
        exact ih (i + 1) hdrop2 hi2 _
      · have hexact :
            exactMatch (candidates t m (bB.sequence.take (i + 1)))
              (bB.sequence.take (i + 1)) = none := by
          rw [exactMatch]
          refine List.find?_eq_none.mpr ?_
          intro b hb
          simp only [decide_eq_true_eq]
          intro hbe
          have hl := congrArg List.length hbe
          rw [hlen_s2] at hl
          rcases ht b (mem_candidates.mp hb).1 with hbe2 | hbe2
          · rw [hbe2] at hl; omega
          · rw [hbe2] at hl; omega
        simp only [hexact]
        exact ih (i + 1) hdrop2 hi2 best

/-- Core lemma for ambiguity timeout: with a table of exactly two
bindings where the longer extends the shorter, feeding exactly the
shorter sequence and then stalling resolves to the shorter binding (the
best exact match recorded when ambiguity was detected), from any
position `i` inside the shorter sequence. -/
theorem resolveLoop_timeout_best {t : List Binding} {bA bB : Binding}
    {m : String}
    (hAt : bA ∈ t) (hBt : bB ∈ t) (ht : ∀ b ∈ t, b = bA ∨ b = bB)
    (hmA : bA.mode = m) (hmB : bB.mode = m)
    (hpre : bA.sequence <+: bB.sequence)
    (hlen : bA.sequence.length < bB.sequence.length) :
    ∀ (rem : List Key) (i : Nat), bA.sequence.drop i = rem →
      i < bA.sequence.length → ∀ best,
      resolveLoop t m rem (bA.sequence.take i) best
        = .matched bA bA.sequence.length := by
  intro rem
  induction rem with
  | nil =>
    intro i hdrop hi best
    have := List.drop_eq_nil_iff.mp hdrop
    omega
  | cons k rest ih =>
    intro i hdrop hi best
    have htake : bA.sequence.take (i + 1) = bA.sequence.take i ++ [k] := by
      rw [List.take_add, hdrop]
      rfl
    have hdrop2 : bA.sequence.drop (i + 1) = rest := by
      rw [← List.tail_drop, hdrop]
      rfl
    simp only [resolveLoop]
    rw [← htake]
    have hlen_s2 : (bA.sequence.take (i + 1)).length = i + 1 := by
      rw [List.length_take]; omega
    have hAc : bA ∈ candidates t m (bA.sequence.take (i + 1)) :=
      mem_candidates.mpr ⟨hAt, hmA, take_isPre _ _⟩
    rw [if_neg (List.ne_nil_of_mem hAc)]
    by_cases hend : i + 1 = bA.sequence.length
    · have hs2 : bA.sequence.take (i + 1) = bA.sequence := by
        rw [hend, List.take_length]
      rw [hs2] at hAc ⊢
      have hBc : bB ∈ candidates t m bA.sequence :=
        mem_candidates.mpr ⟨hBt, hmB, hpre⟩
      have hexact :
          exactMatch (candidates t m bA.sequence) bA.sequence = some bA := by
        refine find_unique hAc (by simp) ?_
        intro b hb hpb
        have hbseq : b.sequence = bA.sequence := of_decide_eq_true hpb
        rcases ht b (mem_candidates.mp hb).1 with hbe | hbe
        · exact hbe
        · exfalso
          rw [hbe] at hbseq
          rw [hbseq] at hlen
          omega
      have hlong :
          hasLongerCandidate (candidates t m bA.sequence) bA.sequence
            = true := by
        rw [hasLongerCandidate]
        refine List.any_eq_true.mpr ⟨bB, hBc, ?_⟩
        simp only [decide_eq_true_eq]
        exact hlen
      have hrest : rest = [] := by
        rw [← hdrop2, hend, List.drop_length]
      simp [hexact, hlong, hrest, resolveLoop]
    · have hi2 : i + 1 < bA.sequence.length := by omega
      have hexact :
          exactMatch (candidates t m (bA.sequence.take (i + 1)))
            (bA.sequence.take (i + 1)) = none := by
        rw [exactMatch]
        refine List.find?_eq_none.mpr ?_
        intro b hb
        simp only [decide_eq_true_eq]
        intro hbe
        have hl := congrArg List.length hbe
        rw [hlen_s2] at hl
        rcases ht b (mem_candidates.mp hb).1 with hbe2 | hbe2
        · rw [hbe2] at hl; omega
        · rw [hbe2] at hl; omega
      simp only [hexact]
      exact ih (i + 1) hdrop2 hi2 best

/-- Support lemma for mode scoping: whenever the resolver emits a full
match, the emitted binding is a candidate from the table registered for
the active mode, provided any recorded best exact match already was. -/
theorem resolveLoop_matched_in_table {t : List Binding} {m : String} :
    ∀ (pending so_far : List Key) (best : Option (Binding × Nat))
      (b : Binding) (n : Nat),
      (∀ p : Binding × Nat, best = some p → p.1.mode = m ∧ p.1 ∈ t) →
      resolveLoop t m pending so_far best = .matched b n →
      b.mode = m ∧ b ∈ t := by
  intro pending
  induction pending with
  | nil =>
    intro so_far best b n hbest hres
    cases best with
    | some p =>
      obtain ⟨b0, n0⟩ := p
      simp only [resolveLoop] at hres
      have := hbest (b0, n0) rfl
      cases hres
      exact this
    | none =>
      cases so_far with
      | nil => simp only [resolveLoop] at hres; cases hres
      | cons k0 ks => simp only [resolveLoop] at hres; cases hres
  | cons k rest ih =>
    intro so_far best b n hbest hres
    simp only [resolveLoop] at hres
    by_cases hc : candidates t m (so_far ++ [k]) = []
    · rw [if_pos hc] at hres
      cases so_far with
      | nil => cases hres
      | cons k0 ks => cases hres
    · rw [if_neg hc] at hres
      cases hex : exactMatch (candidates t m (so_far ++ [k]))
          (so_far ++ [k]) with
      | some b1 =>
        simp only [hex] at hres
        have hb1 : b1 ∈ candidates t m (so_far ++ [k]) :=
          List.mem_of_find?_eq_some (by simpa [exactMatch] using hex)
        have hb1m := mem_candidates.mp hb1
        by_cases hl : hasLongerCandidate (candidates t m (so_far ++ [k]))
            (so_far ++ [k]) = true
        · rw [if_pos hl] at hres
          refine ih _ _ b n (fun p hp => ?_) hres
          cases hp
          exact ⟨hb1m.2.1, hb1m.1⟩
        · rw [if_neg hl] at hres
          cases hres
          exact ⟨hb1m.2.1, hb1m.1⟩
      | none =>
        simp only [hex] at hres
        exact ih _ _ b n hbest hres

/-- Claim C4: the Query Coordinator holds at most one pending query at
any time.  When the state is `Pending`, `issue` with any query id fails
as a logic error (returning no replacement state, so the pending state
held by the caller is unchanged); when the state is `None`, `issue`
succeeds and records `Pending(query_id, now)`. -/
theorem query_coordinator_exclusive (query_id0 issued_at0 query_id now : Nat) :
    QueryState.issue (.pending query_id0 issued_at0) query_id now
        = .error "logic error: a query is already pending" ∧
    QueryState.issue .noQuery query_id now
        = .ok (.pending query_id now) :=
  ⟨rfl, rfl⟩

/-- Claim C5: restart resets the peek cursor to the commit cursor without
discarding any event, so a resolution attempt that advanced the peek
cursor (possibly interleaved with pushes) and then restarted leaves the
queue exactly as if the attempt had never occurred.  `hfresh` states that
`q` is at the start of a resolution attempt (peek cursor at the commit
cursor, nothing tentatively consumed yet). -/
theorem restart_undoes_attempt (q : EventQueue) (n : Nat) (e : Event)
    (hfresh : q.peek_cursor = q.commit_cursor) :
    (q.advance_peek n).restart = q ∧
    ((q.advance_peek n).push e).restart = q.push e ∧
    q.restart = q := by
  obtain ⟨ev, cc, pc⟩ := q
  simp only at hfresh
  subst hfresh
  refine ⟨?_, ?_, ?_⟩ <;>
    simp [EventQueue.advance_peek, EventQueue.restart, EventQueue.push]

/-- Claim C5 witness: a concrete queue with three buffered events, one of
them already committed; advancing the peek cursor by two and restarting
restores the original state. -/
theorem restart_undoes_attempt_witness :
    (let q : EventQueue :=
      { events := [.keyPress (Key.fromRaw 'q'), .rawByte 27, .eof]
        commit_cursor := 1
        peek_cursor := 1 }
     (q.advance_peek 2).restart = q ∧
     ((q.advance_peek 2).push .checkpointMarker).restart
        = q.push .checkpointMarker ∧
     q.restart = q) :=
  restart_undoes_attempt _ 2 .checkpointMarker rfl

/-- Claim C6: every Event Queue operation (push, peek_at, advance_peek,
commit, restart) preserves the cursor invariant
`commit_cursor <= peek_cursor <= queue_length`, and no operation discards
buffered events: advance_peek, commit and restart leave the buffer
untouched, push only appends (every pre-existing position is preserved),
and peek_at is a pure observation at `peek_cursor + offset`. -/
theorem event_queue_ops_preserve_invariant (q : EventQueue) (e : Event)
    (n offset : Nat) (h : q.invariant) :
    (q.push e).invariant ∧
    (q.advance_peek n).invariant ∧
    q.commit.invariant ∧
    q.restart.invariant ∧
    (q.advance_peek n).events = q.events ∧
    q.commit.events = q.events ∧
    q.restart.events = q.events ∧
    (∀ i, i < q.events.length → (q.push e).events[i]? = q.events[i]?) ∧
    q.peek_at offset = q.events[q.peek_cursor + offset]? := by
  obtain ⟨h1, h2⟩ := h
  refine ⟨⟨h1, ?_⟩, ⟨?_, ?_⟩, ⟨le_refl _, h2⟩, ⟨le_refl _, le_trans h1 h2⟩,
      rfl, rfl, rfl, ?_, rfl⟩
  · simpa [EventQueue.push] using le_trans h2 (by omega)
  · exact le_min (le_trans h1 (by omega)) (le_trans (le_trans h1 h2) (le_refl _))
  · exact min_le_right _ _
  · intro i hi
    simp only [EventQueue.push]
    rw [List.getElem?_append_left hi]

/-- Claim C6 witness: the operations applied to a concrete two-event
queue with a nontrivial cursor split. -/
theorem event_queue_ops_preserve_invariant_witness :
    (let q : EventQueue :=
      { events := [.rawByte 113, .keyPress (Key.fromRaw 'a')]
        commit_cursor := 0
        peek_cursor := 1 }
     (q.push .eof).invariant ∧
     (q.advance_peek 1).invariant ∧
     q.commit.invariant ∧
     q.restart.invariant ∧
     (q.advance_peek 1).events = q.events ∧
     q.commit.events = q.events ∧
     q.restart.events = q.events ∧
     (∀ i, i < q.events.length → (q.push .eof).events[i]? = q.events[i]?) ∧
     q.peek_at 0 = q.events[q.peek_cursor + 0]?) :=
  event_queue_ops_preserve_invariant _ .eof 1 0 (by decide)

/-- Claim C1: for two sequences A and B registered in the same mode with
A a strict prefix of B, feeding exactly the keys of B resolves to the
binding of B (with its command list) and never to the binding of A,
independent of registration order: both register-A-then-B and
register-B-then-A resolve to B, consuming all of the keys of B. -/
theorem longest_match_precedence (A B : List Key) (m : String)
    (cA cB : List String) (hpre : A <+: B) (hAB : A ≠ B) :
    resolve (register (register [] (Binding.mk A m cA none true))
        (Binding.mk B m cB none true)) m B
      = .matched (Binding.mk B m cB none true) B.length ∧
    resolve (register (register [] (Binding.mk B m cB none true))
        (Binding.mk A m cA none true)) m B
      = .matched (Binding.mk B m cB none true) B.length := by
  have hlen : A.length < B.length :=
    Nat.lt_of_le_of_ne hpre.length_le fun h => hAB (hpre.eq_of_length h)
  have hBA : B ≠ A := fun h => hAB h.symm
  have h0 : 0 < B.length := by omega
  have ht1 : register (register [] (Binding.mk A m cA none true))
      (Binding.mk B m cB none true)
      = [Binding.mk A m cA none true, Binding.mk B m cB none true] := by
    simp [register, hAB]
  have ht2 : register (register [] (Binding.mk B m cB none true))
      (Binding.mk A m cA none true)
      = [Binding.mk B m cB none true, Binding.mk A m cA none true] := by
    simp [register, hBA]
  constructor
  · rw [ht1]
    exact @resolveLoop_longest_wins
      [Binding.mk A m cA none true, Binding.mk B m cB none true]
      (Binding.mk A m cA none true) (Binding.mk B m cB none true) m
      (by simp) (by simp) (by intro b hb; simpa using hb)
      rfl rfl hpre hlen B 0 rfl h0 none
  · rw [ht2]
    refine @resolveLoop_longest_wins
      [Binding.mk B m cB none true, Binding.mk A m cA none true]
      (Binding.mk A m cA none true) (Binding.mk B m cB none true) m
      (by simp) (by simp) ?_ rfl rfl hpre hlen B 0 rfl h0 none
    intro b hb
    exact Or.symm (by simpa using hb)

/-- Claim C1 witness: the scenario of the repository test `test_input`:
`qqqqqqqa` bound to `up-line` and `qqqqqqqaa` bound to `down-line` in the
default mode; feeding the nine keys `q,q,q,q,q,q,q,a,a` resolves to the
`down-line` binding in both registration orders. -/
theorem longest_match_precedence_witness :
    resolve (register (register []
        (Binding.mk (List.replicate 7 (Key.fromRaw 'q') ++ [Key.fromRaw 'a'])
          DEFAULT_BIND_MODE ["up-line"] none true))
        (Binding.mk
          (List.replicate 7 (Key.fromRaw 'q')
            ++ [Key.fromRaw 'a'] ++ [Key.fromRaw 'a'])
          DEFAULT_BIND_MODE ["down-line"] none true))
      DEFAULT_BIND_MODE
      (List.replicate 7 (Key.fromRaw 'q')
        ++ [Key.fromRaw 'a'] ++ [Key.fromRaw 'a'])
      = .matched (Binding.mk
          (List.replicate 7 (Key.fromRaw 'q')
            ++ [Key.fromRaw 'a'] ++ [Key.fromRaw 'a'])
          DEFAULT_BIND_MODE ["down-line"] none true) 9 ∧
    resolve (register (register []
        (Binding.mk
          (List.replicate 7 (Key.fromRaw 'q')
            ++ [Key.fromRaw 'a'] ++ [Key.fromRaw 'a'])
          DEFAULT_BIND_MODE ["down-line"] none true))
        (Binding.mk (List.replicate 7 (Key.fromRaw 'q') ++ [Key.fromRaw 'a'])
          DEFAULT_BIND_MODE ["up-line"] none true))
      DEFAULT_BIND_MODE
      (List.replicate 7 (Key.fromRaw 'q')
        ++ [Key.fromRaw 'a'] ++ [Key.fromRaw 'a'])
      = .matched (Binding.mk
          (List.replicate 7 (Key.fromRaw 'q')
            ++ [Key.fromRaw 'a'] ++ [Key.fromRaw 'a'])
          DEFAULT_BIND_MODE ["down-line"] none true) 9 :=
  longest_match_precedence
    (List.replicate 7 (Key.fromRaw 'q') ++ [Key.fromRaw 'a'])
    (List.replicate 7 (Key.fromRaw 'q') ++ [Key.fromRaw 'a']
      ++ [Key.fromRaw 'a'])
    DEFAULT_BIND_MODE ["up-line"] ["down-line"] (by decide) (by decide)

/-- Claim C2: with A registered and B = A ++ ext (ext nonempty)
registered in the same mode, feeding exactly the keys of A with no
further input resolves to the binding of A once the ambiguity wait runs
out (end of the fed input), in both registration orders. -/
theorem timeout_degrades_to_best_exact (A ext : List Key) (m : String)
    (cA cB : List String) (hne : A ≠ []) (hext : ext ≠ []) :
    resolve (register (register [] (Binding.mk A m cA none true))
        (Binding.mk (A ++ ext) m cB none true)) m A
      = .matched (Binding.mk A m cA none true) A.length ∧
    resolve (register (register [] (Binding.mk (A ++ ext) m cB none true))
        (Binding.mk A m cA none true)) m A
      = .matched (Binding.mk A m cA none true) A.length := by
  have hlen : A.length < (A ++ ext).length := by
    rw [List.length_append]
    have : 0 < ext.length := List.length_pos.mpr hext
    omega
  have hpre : A <+: A ++ ext := ⟨ext, rfl⟩
  have hAB : A ≠ A ++ ext := by
    intro h
    have := congrArg List.length h
    rw [List.length_append] at this
    have : 0 < ext.length := List.length_pos.mpr hext
    omega
  have hBA : A ++ ext ≠ A := fun h => hAB h.symm
  have h0 : 0 < A.length := List.length_pos.mpr hne
  have ht1 : register (register [] (Binding.mk A m cA none true))
      (Binding.mk (A ++ ext) m cB none true)
      = [Binding.mk A m cA none true, Binding.mk (A ++ ext) m cB none true] := by
    simp [register, hAB]
  have ht2 : register (register [] (Binding.mk (A ++ ext) m cB none true))
      (Binding.mk A m cA none true)
      = [Binding.mk (A ++ ext) m cB none true, Binding.mk A m cA none true] := by
    simp [register, hBA]
  constructor
  · rw [ht1]
    exact @resolveLoop_timeout_best
      [Binding.mk A m cA none true, Binding.mk (A ++ ext) m cB none true]
      (Binding.mk A m cA none true) (Binding.mk (A ++ ext) m cB none true) m
      (by simp) (by simp) (by intro b hb; simpa using hb)
      rfl rfl hpre hlen A 0 rfl h0 none
  · rw [ht2]
    refine @resolveLoop_timeout_best
      [Binding.mk (A ++ ext) m cB none true, Binding.mk A m cA none true]
      (Binding.mk A m cA none true) (Binding.mk (A ++ ext) m cB none true) m
      (by simp) (by simp) ?_ rfl rfl hpre hlen A 0 rfl h0 none
    intro b hb
    exact Or.symm (by simpa using hb)

/-- Claim C2 witness: `qqqqqqqa` and `qqqqqqqaa` bound in the default
mode; feeding only the eight keys `q,q,q,q,q,q,q,a` and stalling
resolves to the shorter `up-line` binding. -/
theorem timeout_degrades_to_best_exact_witness :
    resolve (register (register []
        (Binding.mk (List.replicate 7 (Key.fromRaw 'q') ++ [Key.fromRaw 'a'])
          DEFAULT_BIND_MODE ["up-line"] none true))
        (Binding.mk
          ((List.replicate 7 (Key.fromRaw 'q') ++ [Key.fromRaw 'a'])
            ++ [Key.fromRaw 'a'])
          DEFAULT_BIND_MODE ["down-line"] none true))
      DEFAULT_BIND_MODE
      (List.replicate 7 (Key.fromRaw 'q') ++ [Key.fromRaw 'a'])
      = .matched
          (Binding.mk
            (List.replicate 7 (Key.fromRaw 'q') ++ [Key.fromRaw 'a'])
            DEFAULT_BIND_MODE ["up-line"] none true) 8 ∧
    resolve (register (register []
        (Binding.mk
          ((List.replicate 7 (Key.fromRaw 'q') ++ [Key.fromRaw 'a'])
            ++ [Key.fromRaw 'a'])
          DEFAULT_BIND_MODE ["down-line"] none true))
        (Binding.mk (List.replicate 7 (Key.fromRaw 'q') ++ [Key.fromRaw 'a'])
          DEFAULT_BIND_MODE ["up-line"] none true))
      DEFAULT_BIND_MODE
      (List.replicate 7 (Key.fromRaw 'q') ++ [Key.fromRaw 'a'])
      = .matched
          (Binding.mk
            (List.replicate 7 (Key.fromRaw 'q') ++ [Key.fromRaw 'a'])
            DEFAULT_BIND_MODE ["up-line"] none true) 8 := by
  have h := timeout_degrades_to_best_exact
    (List.replicate 7 (Key.fromRaw 'q') ++ [Key.fromRaw 'a'])
    [Key.fromRaw 'a'] DEFAULT_BIND_MODE ["up-line"] ["down-line"]
    (by decide) (by decide)
  simpa using h

/-- Claim C3: when no binding registered for the active mode has any
nonempty prefix of the fed keys as a prefix of its sequence, resolution
immediately yields the single-character fallback (self-insert) for the
first fed key, consuming exactly one key and leaving all subsequent
collected keys in the queue for the next resolution attempt. -/
theorem fallback_on_no_candidate (t : List Binding) (m : String) (k : Key)
    (rest : List Key)
    (h : ∀ b ∈ t, b.mode = m → ∀ p ∈ (k :: rest).inits, p ≠ [] →
      ¬ p <+: b.sequence) :
    resolve t m (k :: rest) = .selfInsert k ∧
    (k :: rest).drop (resolve t m (k :: rest)).consumed = rest := by
  have hc : candidates t m [k] = [] := by
    refine List.filter_eq_nil_iff.mpr ?_
    intro b hb
    simp only [decide_eq_true_eq]
    rintro ⟨hbm, hbp⟩
    exact h b hb hbm [k] ((List.mem_inits _ _).mpr ⟨rest, rfl⟩) (by simp) hbp
  have hres : resolve t m (k :: rest) = .selfInsert k := by
    simp [resolve, resolveLoop, hc]
  refine ⟨hres, ?_⟩
  rw [hres]
  rfl

/-- Claim C3 witness: a table binding only `x` in the default mode, fed
the two keys `y z`: resolution self-inserts `y` and leaves `z` queued. -/
theorem fallback_on_no_candidate_witness :
    resolve [Binding.mk [Key.fromRaw 'x'] DEFAULT_BIND_MODE ["beep"]
        none true]
      DEFAULT_BIND_MODE [Key.fromRaw 'y', Key.fromRaw 'z']
      = .selfInsert (Key.fromRaw 'y') ∧
    [Key.fromRaw 'y', Key.fromRaw 'z'].drop
        (resolve [Binding.mk [Key.fromRaw 'x'] DEFAULT_BIND_MODE ["beep"]
            none true]
          DEFAULT_BIND_MODE [Key.fromRaw 'y', Key.fromRaw 'z']).consumed
      = [Key.fromRaw 'z'] :=
  fallback_on_no_candidate _ _ _ _ (by decide)

/-- Claim C7: mode scoping.  `candidates(mode, so_far)` returns only
bindings from the table registered for the given mode, each of whose
sequence has `so_far` as a prefix; consequently the resolver never emits
a binding registered for a different mode than the active one, so a
sequence bound only in mode X cannot fire while the active mode is
Y different from X, even on identical keys. -/
theorem mode_scoping (t : List Binding) (m : String) (s input : List Key)
    (b : Binding) (n : Nat) :
    (∀ c ∈ candidates t m s, c ∈ t ∧ c.mode = m ∧ s <+: c.sequence) ∧
    (resolve t m input = .matched b n → b.mode = m ∧ b ∈ t) := by
  constructor
  · intro c hc
    exact mem_candidates.mp hc
  · intro hres
    exact resolveLoop_matched_in_table input [] none b n
      (fun p hp => nomatch hp) hres

/-- Claim C7 witness: a binding for mode `X`, fired while mode `X` is
active with its own sequence, is indeed in the table and in mode `X`
(and, by the theorem, firing in any other mode is impossible). -/
theorem mode_scoping_witness :
    (Binding.mk [Key.fromRaw 'x'] "X" ["beep"] none true).mode = "X" ∧
    Binding.mk [Key.fromRaw 'x'] "X" ["beep"] none true
      ∈ [Binding.mk [Key.fromRaw 'x'] "X" ["beep"] none true] :=
  (mode_scoping [Binding.mk [Key.fromRaw 'x'] "X" ["beep"] none true]
    "X" [] [Key.fromRaw 'x']
    (Binding.mk [Key.fromRaw 'x'] "X" ["beep"] none true) 1).2 (by decide)

end FishInput

namespace GettextPo

/-- Conversion of character-list content to a `String` for error
messages (the embedding represents Rust `&str`/`String` content as
`List Char`). -/
def toS (l : List Char) : String := String.mk l

/-- Source: the character loop of `parse_c_string_literal`
(`crates/gettext-po-file-parser/src/lib.rs`), over the characters
between the delimiting double quotes, with the `is_escaped` flag.  Only
the listed subset of C escape sequences is supported; an unescaped
double quote or a trailing backslash is an error. -/
def parseCStringBody : List Char → Bool → Except String (List Char)
  | [], true => .error "Unterminated escape at the end of the string."
  | [], false => .ok []
  | c :: rest, true =>
    match c with
    | 'a' => (parseCStringBody rest false).map (fun s => '\x07' :: s)
    | 'b' => (parseCStringBody rest false).map (fun s => '\x08' :: s)
    | 'f' => (parseCStringBody rest false).map (fun s => '\x0C' :: s)
    | 'n' => (parseCStringBody rest false).map (fun s => '\n' :: s)
    | 't' => (parseCStringBody rest false).map (fun s => '\t' :: s)
    | 'v' => (parseCStringBody rest false).map (fun s => '\x0B' :: s)
    | '"' => (parseCStringBody rest false).map (fun s => '"' :: s)
    | '\\' => (parseCStringBody rest false).map (fun s => '\\' :: s)
    | other => .error ("Unsupported escaped character: " ++ toS [other])
  | c :: rest, false =>
    if c = '"' then
      .error "Unescaped double quote appeared in string literal before it was supposed to end."
    else if c = '\\' then
      parseCStringBody rest true
    else
      (parseCStringBody rest false).map (fun s => c :: s)

/-- Source: `parse_c_string_literal`: expects a double-quote delimited
literal; strips the first and last character (which must both be double
quotes) and parses the remaining content. -/
def parse_c_string_literal (literal : List Char) : Except String (List Char) :=
  match literal with
  | [] => .error "Expected double-quote delimited string literal, but got nothing."
  | first :: rest =>
    if first ≠ '"' then
      .error ("Expected double quote at start of string literal but got \x27"
        ++ toS [first] ++ "\x27")
    else
      match rest.getLast? with
      | none =>
        .error "Expected double-quote at the end of a string literal, but got nothing."
      | some last =>
        if last ≠ '"' then
          .error ("Expected double quote at end of string literal but got \x27"
            ++ toS [last] ++ "\x27")
        else
          parseCStringBody rest.dropLast false

/-- Source: the `LineType` enum of the PO parser. -/
inductive LineType where
  | Ignored
  | MsgidStart (s : List Char)
  | MsgstrStart (s : List Char)
  | QuotedString (s : List Char)
  | Unsupported (e : String)
  | Invalid (e : String)
deriving DecidableEq, Repr

/-- Embedding of Rust `str::starts_with` at the character level. -/
def startsWithChars : List Char → List Char → Bool
  | _, [] => true
  | [], _ :: _ => false
  | c :: cs, p :: ps => c == p && startsWithChars cs ps

/-- Source: `determine_line_type`: classifies one line of a PO file.
Empty lines and `#` comments are ignored; `msgctxt`, `msgid_plural` and
indexed `msgstr[` are unsupported; `msgid `/`msgstr ` start entries with
a C string literal; a bare string literal continues the current entry. -/
def determine_line_type (line : List Char) : LineType :=
  match line with
  | [] => .Ignored
  | first :: _ =>
    if first = '#' then .Ignored
    else if startsWithChars line "msgctxt ".data then
      .Unsupported "msgctxt is not supported."
    else if startsWithChars line "msgid_plural ".data then
      .Unsupported "msgid_plural is not supported."
    else if startsWithChars line "msgstr[".data then
      .Unsupported "Indexed msgstr is not supported."
    else if startsWithChars line "msgid ".data then
      match parse_c_string_literal (line.drop 6) with
      | .ok lit => .MsgidStart lit
      | .error err =>
        .Invalid ("Expected C-style string literal after \x27msgid \x27, but failed to parse one: "
          ++ err)
    else if startsWithChars line "msgstr ".data then
      match parse_c_string_literal (line.drop 7) with
      | .ok lit => .MsgstrStart lit
      | .error err =>
        .Invalid ("Expected C-style string literal after \x27msgstr \x27, but failed to parse one: "
          ++ err)
    else if first = '"' then
      match parse_c_string_literal line with
      | .ok lit => .QuotedString lit
      | .error err =>
        .Invalid ("Expected C-style string literal, but failed to parse one: " ++ err)
    else .Invalid "Line did not match the expected format."

/-- Source: the `EntryState` enum of `ParsingState`. -/
inductive EntryState where
  | WaitingForEntry
  | StartedMsgid (msgid : List Char)
  | StartedMsgstr (msgid : List Char) (msgstr : List Char)
deriving DecidableEq, Repr

/-- Source: `ParsingState` (the `Option` wrapper around `entry_state` in
the Rust code is only a borrow-splitting device and is dropped here). -/
structure ParsingState where
  entry_state : EntryState
  entries : List (List Char × List Char)
  line_number : Nat
deriving DecidableEq, Repr

/-- Source: `ParsingState::new`. -/
def ParsingState.new : ParsingState :=
  { entry_state := .WaitingForEntry, entries := [], line_number := 0 }

/-- Embedding of `HashMap::insert`: returns the previous value bound to
the key, if any, together with the updated map (association list with
unique keys). -/
def insertEntry :
    List (List Char × List Char) → List Char → List Char →
      Option (List Char) × List (List Char × List Char)
  | [], k, v => (none, [(k, v)])
  | (k0, v0) :: rest, k, v =>
    if k0 = k then (some v0, (k, v) :: rest)
    else
      match insertEntry rest k v with
      | (old, rest2) => (old, (k0, v0) :: rest2)

/-- Source: `ParsingState::add_entry`: inserts the entry into the map;
a previous binding for the same msgid is a duplicate-msgid error.  This
adds entries with empty msgstr too, to enable duplicate msgid
detection. -/
def ParsingState.add_entry (st : ParsingState) (msgid msgstr : List Char) :
    Except String ParsingState :=
  match insertEntry st.entries msgid msgstr with
  | (some original_msgstr, _) =>
    .error ("Duplicate msgid \x27" ++ toS msgid ++ "\x27. First translated as "
      ++ toS original_msgstr ++ ", then as " ++ toS msgstr)
  | (none, entries2) => .ok { st with entries := entries2 }

/-- Source: `ParsingState::add_line`: one step of the line-oriented
state machine, incrementing the line counter first. -/
def ParsingState.add_line (st0 : ParsingState) (line : List Char) :
    Except String ParsingState :=
  let st := { st0 with line_number := st0.line_number + 1 }
  match determine_line_type line with
  | .Ignored =>
    match st.entry_state with
    | .WaitingForEntry => .ok { st with entry_state := .WaitingForEntry }
    | .StartedMsgid msgid =>
      .error ("line " ++ toString st.line_number ++ ", msgid \"" ++ toS msgid
        ++ "\": msgid must be directly followed by msgstr.")
    | .StartedMsgstr msgid msgstr =>
      match st.add_entry msgid msgstr with
      | .error err => .error ("line " ++ toString st.line_number ++ ": " ++ err)
      | .ok st2 => .ok { st2 with entry_state := .WaitingForEntry }
  | .MsgidStart msgid =>
    match st.entry_state with
    | .WaitingForEntry => .ok { st with entry_state := .StartedMsgid msgid }
    | .StartedMsgid second_msgid =>
      .error ("line " ++ toString st.line_number ++ ": two consecutive msgids: \""
        ++ toS msgid ++ "\" and \"" ++ toS second_msgid ++ "\"")
    | .StartedMsgstr old_msgid old_msgstr =>
      match st.add_entry old_msgid old_msgstr with
      | .error err => .error ("line " ++ toString st.line_number ++ ": " ++ err)
      | .ok st2 => .ok { st2 with entry_state := .StartedMsgid msgid }
  | .MsgstrStart msgstr =>
    match st.entry_state with
    | .WaitingForEntry =>
      .error ("line " ++ toString st.line_number ++ ": msgstr \"" ++ toS msgstr
        ++ "\" without preceding msgid.")
    | .StartedMsgid msgid =>
      .ok { st with entry_state := .StartedMsgstr msgid msgstr }
    | .StartedMsgstr msgid first_msgstr =>
      .error ("line " ++ toString st.line_number
        ++ ": two consecutive msgstrs for msgid \"" ++ toS msgid ++ "\": \""
        ++ toS first_msgstr ++ "\" and \"" ++ toS msgstr ++ "\"")
  | .QuotedString string =>
    match st.entry_state with
    | .WaitingForEntry =>
      .error ("line " ++ toString st.line_number
        ++ ": string literal not part of a msgid or msgstr: \"" ++ toS string ++ "\"")
    | .StartedMsgid msgid =>
      .ok { st with entry_state := .StartedMsgid (msgid ++ string) }
    | .StartedMsgstr msgid msgstr =>
      .ok { st with entry_state := .StartedMsgstr msgid (msgstr ++ string) }
  | .Unsupported err =>
    .error ("Unsupported syntax found in line " ++ toString st.line_number
      ++ ": " ++ err)
  | .Invalid err =>
    .error ("Invalid syntax found in line " ++ toString st.line_number
      ++ ": " ++ err)

/-- Source: `ParsingState::finish`: flushes a trailing entry, rejects a
trailing msgid, and removes entries with empty msgstr before returning
the map. -/
def ParsingState.finish (st : ParsingState) :
    Except String (List (List Char × List Char)) :=
  match st.entry_state with
  | .WaitingForEntry => .ok (st.entries.filter (fun p => !p.2.isEmpty))
  | .StartedMsgid msgid =>
    .error ("Trailing msgid \x27" ++ toS msgid
      ++ "\x27 without corresponding msgstr.")
  | .StartedMsgstr msgid msgstr =>
    match st.add_entry msgid msgstr with
    | .error err => .error err
    | .ok st2 => .ok (st2.entries.filter (fun p => !p.2.isEmpty))

/-- Source: the line loop of `parse_po_file`, propagating the first
error. -/
def runLines : ParsingState → List (List Char) → Except String ParsingState
  | st, [] => .ok st
  | st, l :: ls =>
    match st.add_line l with
    | .error e => .error e
    | .ok st2 => runLines st2 ls

/-- Source: `parse_po_file`.  The byte content has already been split
into decoded text lines (the embedding abstracts `BufRead::lines`:
each element is one line without its terminator). -/
def parse_po_file (lines : List (List Char)) :
    Except String (List (List Char × List Char)) :=
  match runLines ParsingState.new lines with
  | .error e => .error e
  | .ok st => st.finish

/-- Elements surviving the empty-msgstr filter have nonempty msgstr. -/
theorem mem_filter_msgstr_ne_nil {e : List (List Char × List Char)}
    {p : List Char × List Char}
    (hp : p ∈ e.filter (fun q => !q.2.isEmpty)) : p.2 ≠ [] := by
  have h := (List.mem_filter.mp hp).2
  intro hnil
  rw [hnil] at h
  simp at h

/-- Claim C8: whenever `parse_po_file` succeeds, every msgstr value in
the returned map is nonempty — entries whose final msgstr is empty are
inserted during parsing (for duplicate detection) but filtered out by
`finish` before the map is returned. -/
theorem parse_po_file_values_nonempty (lines : List (List Char))
    (m : List (List Char × List Char))
    (h : parse_po_file lines = .ok m) :
    ∀ p ∈ m, p.2 ≠ [] := by
  intro p hp
  rw [parse_po_file] at h
  cases hr : runLines ParsingState.new lines with
  | error e => rw [hr] at h; cases h
  | ok st =>
    rw [hr] at h
    obtain ⟨es, en, ln⟩ := st
    cases es with
    | WaitingForEntry =>
      simp only [ParsingState.finish] at h
      cases h
      exact mem_filter_msgstr_ne_nil hp
    | StartedMsgid msgid =>
      simp only [ParsingState.finish] at h
      cases h
    | StartedMsgstr msgid msgstr =>
      simp only [ParsingState.finish] at h
      cases hae : ParsingState.add_entry
          ⟨EntryState.StartedMsgstr msgid msgstr, en, ln⟩ msgid msgstr with
      | error e =>
        rw [hae] at h
        cases h
      | ok st2 =>
        rw [hae] at h
        cases h
        exact mem_filter_msgstr_ne_nil hp

/-- Claim C8 witness: a two-line file with one translated entry parses
to a map whose (only) entry has a nonempty msgstr. -/
theorem parse_po_file_values_nonempty_witness :
    ((['a'], ['b']) : List Char × List Char).2 ≠ [] :=
  parse_po_file_values_nonempty
    ["msgid \"a\"".data, "msgstr \"b\"".data] [(['a'], ['b'])] rfl
    (['a'], ['b']) (by decide)

/-- Escaping of literal content, used to quantify the duplicate-msgid
theorem over arbitrary msgid/msgstr content: double quote and backslash
are escaped, every other character is kept raw (the parser accepts any
raw character other than an unescaped quote or backslash). -/
def escChar (c : Char) : List Char :=
  if c = '"' ∨ c = '\\' then ['\\', c] else [c]

/-- Escape a whole content string. -/
def escapeContent : List Char → List Char
  | [] => []
  | c :: cs => escChar c ++ escapeContent cs

/-- A double-quote delimited literal with escaped content. -/
def quoteLit (s : List Char) : List Char :=
  '"' :: (escapeContent s ++ ['"'])

/-- A well-formed `msgid` line for arbitrary content. -/
def msgidLine (s : List Char) : List Char := "msgid ".data ++ quoteLit s

/-- A well-formed `msgstr` line for arbitrary content. -/
def msgstrLine (s : List Char) : List Char := "msgstr ".data ++ quoteLit s

/-- The literal-body parser inverts the escaping, for every content
string. -/
theorem parseCStringBody_escape (s : List Char) :
    parseCStringBody (escapeContent s) false = .ok s := by
  induction s with
  | nil => rfl
  | cons c cs ih =>
    by_cases hq : c = '"'
    · subst hq
      simp [escapeContent, escChar, parseCStringBody, ih, Except.map]
    · by_cases hb : c = '\\'
      · subst hb
        simp [escapeContent, escChar, parseCStringBody, ih, Except.map]
      · have hne : ¬(c = '"' ∨ c = '\\') := by
          rintro (h | h) <;> [exact hq h; exact hb h]
        simp [escapeContent, escChar, hne, parseCStringBody, hq, hb, ih,
          Except.map]

/-- The literal parser inverts quoting with escaping, for every content
string. -/
theorem parse_quoteLit (s : List Char) :
    parse_c_string_literal (quoteLit s) = .ok s := by
  have h : parse_c_string_literal (quoteLit s)
      = match (escapeContent s ++ ['"']).getLast? with
        | none =>
          .error "Expected double-quote at the end of a string literal, but got nothing."
        | some last =>
          if last ≠ '"' then
            .error ("Expected double quote at end of string literal but got \x27"
              ++ toS [last] ++ "\x27")
          else
            parseCStringBody (escapeContent s ++ ['"']).dropLast false := rfl
  rw [h]
  simp [parseCStringBody_escape]

/-- A generated msgid line is classified as a `MsgidStart` with exactly
the intended content. -/
theorem determine_msgidLine (s : List Char) :
    determine_line_type (msgidLine s) = .MsgidStart s := by
  have h : determine_line_type (msgidLine s)
      = match parse_c_string_literal (quoteLit s) with
        | .ok lit => LineType.MsgidStart lit
        | .error err =>
          LineType.Invalid ("Expected C-style string literal after \x27msgid \x27, but failed to parse one: "
            ++ err) := rfl
  rw [h, parse_quoteLit]

/-- A generated msgstr line is classified as a `MsgstrStart` with
exactly the intended content. -/
theorem determine_msgstrLine (s : List Char) :
    determine_line_type (msgstrLine s) = .MsgstrStart s := by
  have h : determine_line_type (msgstrLine s)
      = match parse_c_string_literal (quoteLit s) with
        | .ok lit => LineType.MsgstrStart lit
        | .error err =>
          LineType.Invalid ("Expected C-style string literal after \x27msgstr \x27, but failed to parse one: "
            ++ err) := rfl
  rw [h, parse_quoteLit]

/-- Claim C9: a file consisting of two well-formed entries with the same
msgid is rejected with a duplicate-msgid error, for every msgid and
every pair of msgstr values — in particular when the first msgstr is the
empty string, because entries with empty msgstr are inserted (and hence
participate in duplicate detection) before the empty ones are filtered
out. -/
theorem parse_po_file_duplicate_msgid (id s1 s2 : List Char) :
    parse_po_file
        [msgidLine id, msgstrLine s1, msgidLine id, msgstrLine s2]
      = .error ("Duplicate msgid \x27" ++ toS id ++ "\x27. First translated as "
          ++ toS s1 ++ ", then as " ++ toS s2) := by
  have h1 : ParsingState.new.add_line (msgidLine id)
      = .ok { entry_state := .StartedMsgid id, entries := [], line_number := 1 } := by
    simp [ParsingState.add_line, determine_msgidLine, ParsingState.new]
  have h2 : ParsingState.add_line
        { entry_state := .StartedMsgid id, entries := [], line_number := 1 }
        (msgstrLine s1)
      = .ok { entry_state := .StartedMsgstr id s1, entries := [], line_number := 2 } := by
    simp [ParsingState.add_line, determine_msgstrLine]
  have h3 : ParsingState.add_line
        { entry_state := .StartedMsgstr id s1, entries := [], line_number := 2 }
        (msgidLine id)
      = .ok { entry_state := .StartedMsgid id, entries := [(id, s1)],
              line_number := 3 } := by
    simp [ParsingState.add_line, determine_msgidLine, ParsingState.add_entry,
      insertEntry]
  have h4 : ParsingState.add_line
        { entry_state := .StartedMsgid id, entries := [(id, s1)],
          line_number := 3 }
        (msgstrLine s2)
      = .ok { entry_state := .StartedMsgstr id s2, entries := [(id, s1)],
              line_number := 4 } := by
    simp [ParsingState.add_line, determine_msgstrLine]
  have h5 : ParsingState.finish
        { entry_state := .StartedMsgstr id s2, entries := [(id, s1)],
          line_number := 4 }
      = .error ("Duplicate msgid \x27" ++ toS id ++ "\x27. First translated as "
          ++ toS s1 ++ ", then as " ++ toS s2) := by
    simp [ParsingState.finish, ParsingState.add_entry, insertEntry]
  rw [parse_po_file]
  simp only [runLines, h1, h2, h3, h4, h5]

end GettextPo

namespace StringLength

/-- Source: the error code `STATUS_CMD_ERROR` returned by
`Length::handle` when no argument had nonzero length
(`src/builtins/string/length.rs`); represented abstractly since its
numeric value is defined outside the excerpt. -/
inductive ErrorCode where
  | STATUS_CMD_ERROR
deriving DecidableEq, Repr

/-- Source: the argument loop of `Length::handle` on the default
(non-`--visible`) path: each argument contributes its character count
`n`; arguments with `n > 0` are counted in `nnonempty`; without
`--quiet` each length is appended to the output stream as a line; with
`--quiet` the handler returns `Ok(())` as soon as `nnonempty` becomes
positive, writing nothing.  After the loop, `Ok(())` is returned when
`nnonempty > 0` and `Err(STATUS_CMD_ERROR)` otherwise.  Arguments are
character lists (Rust `wstr`), the accumulated output lines model
`streams.out`.  The `--visible` branch uses `width_without_escapes`,
which is outside the excerpt, and is not modelled. -/
def lengthLoop (quiet : Bool) :
    List (List Char) → Nat → List String →
      Except ErrorCode Unit × List String
  | [], nnonempty, out =>
    (if nnonempty > 0 then .ok () else .error .STATUS_CMD_ERROR, out)
  | arg :: args, nnonempty, out =>
    let n := arg.length
    let nnonempty2 := if n > 0 then nnonempty + 1 else nnonempty
    if !quiet then
      lengthLoop quiet args nnonempty2 (out ++ [toString n])
    else if nnonempty2 > 0 then
      (.ok (), out)
    else
      lengthLoop quiet args nnonempty2 out

/-- Source: `Length::handle` without `--visible`, over the expanded
argument list, starting from `nnonempty = 0` and an empty output
stream. -/
def handle (quiet : Bool) (args : List (List Char)) :
    Except ErrorCode Unit × List String :=
  lengthLoop quiet args 0 []

/-- Characterization of the non-quiet loop result. -/
theorem lengthLoop_false_fst (args : List (List Char)) :
    ∀ (nn : Nat) (out : List String),
      (lengthLoop false args nn out).1
        = if nn > 0 ∨ ∃ a ∈ args, a ≠ [] then .ok ()
          else .error .STATUS_CMD_ERROR := by
  induction args with
  | nil =>
    intro nn out
    simp [lengthLoop]
  | cons a args ih =>
    intro nn out
    by_cases ha : a = []
    · subst ha
      simp [lengthLoop, ih]
    · have hlen : 0 < a.length := List.length_pos.mpr ha
      simp [lengthLoop, hlen, ih, ha]

/-- Characterization of the quiet loop: the result is Ok exactly when a
nonempty argument exists, and the output is never touched. -/
theorem lengthLoop_true (args : List (List Char)) :
    ∀ out : List String,
      lengthLoop true args 0 out
        = (if ∃ a ∈ args, a ≠ [] then .ok ()
           else .error .STATUS_CMD_ERROR, out) := by
  induction args with
  | nil =>
    intro out
    simp [lengthLoop]
  | cons a args ih =>
    intro out
    by_cases ha : a = []
    · subst ha
      simp [lengthLoop, ih]
    · have hlen : 0 < a.length := List.length_pos.mpr ha
      simp [lengthLoop, hlen, ha]

/-- Claim C10: for `string length` without `--visible`: the handler
returns Ok exactly when at least one processed argument is nonempty, and
`Err(STATUS_CMD_ERROR)` when there are no arguments or every argument is
empty — both without and with `--quiet`; with `--quiet` it writes no
output and returns Ok as soon as the first nonempty argument is seen,
regardless of the remaining arguments. -/
theorem length_handle_spec (args pre post : List (List Char))
    (a : List Char) (_hpre : ∀ x ∈ pre, x = []) (ha : a ≠ []) :
    ((handle false args).1 = .ok () ↔ ∃ x ∈ args, x ≠ []) ∧
    ((handle false args).1 = .error .STATUS_CMD_ERROR
      ↔ ¬ ∃ x ∈ args, x ≠ []) ∧
    ((handle true args).1 = .ok () ↔ ∃ x ∈ args, x ≠ []) ∧
    ((handle true args).1 = .error .STATUS_CMD_ERROR
      ↔ ¬ ∃ x ∈ args, x ≠ []) ∧
    (handle true args).2 = [] ∧
    handle true (pre ++ a :: post) = (.ok (), []) := by
  have hf := lengthLoop_false_fst args 0 []
  have htr := lengthLoop_true args []
  have htr2 := lengthLoop_true (pre ++ a :: post) []
  have hex : ∃ x ∈ pre ++ a :: post, x ≠ [] :=
    ⟨a, by simp, ha⟩
  have hres_false : (handle false args).1
      = if ∃ x ∈ args, x ≠ [] then Except.ok ()
        else Except.error ErrorCode.STATUS_CMD_ERROR := by
    rw [handle, hf]
    simp
  have hres_true : handle true args
      = (if ∃ x ∈ args, x ≠ [] then Except.ok ()
         else Except.error ErrorCode.STATUS_CMD_ERROR, ([] : List String)) := by
    rw [handle, htr]
  refine ⟨?_, ?_, ?_, ?_, ?_, ?_⟩
  · rw [hres_false]
    split_ifs with h <;> simp [h]
  · rw [hres_false]
    split_ifs with h <;> simp [h]
  · rw [hres_true]
    split_ifs with h <;> simp [h]
  · rw [hres_true]
    split_ifs with h <;> simp [h]
  · rw [hres_true]
  · rw [handle, htr2, if_pos hex]

/-- Claim C10 witness: concrete argument vectors: `["", "x"]` yields Ok
in both modes (quiet mode with empty output), and quiet mode returns Ok
on the first nonempty argument of `["", "x", "y"]`. -/
theorem length_handle_spec_witness :
    (((handle false [[], ['x']]).1 = .ok () ↔ ∃ x ∈ [[], ['x']], x ≠ []) ∧
     ((handle false [[], ['x']]).1 = .error .STATUS_CMD_ERROR
       ↔ ¬ ∃ x ∈ [[], ['x']], x ≠ []) ∧
     ((handle true [[], ['x']]).1 = .ok () ↔ ∃ x ∈ [[], ['x']], x ≠ []) ∧
     ((handle true [[], ['x']]).1 = .error .STATUS_CMD_ERROR
       ↔ ¬ ∃ x ∈ [[], ['x']], x ≠ []) ∧
     (handle true [[], ['x']]).2 = [] ∧
     handle true ([[]] ++ ['x'] :: [['y']]) = (.ok (), [])) :=
  length_handle_spec [[], ['x']] [[]] [['y']] ['x']
    (by decide) (by decide)

end StringLength
